import Mathlib

/-!
Shallow embedding of the register-analysis core of the IC-EDA tool
(`src/tools/analyze.ts`): reconstruction of Verible's textual parse-tree
dump, tree queries, register-declaration extraction, flip-flop/latch
classification, and result aggregation.  Definitions are translated
directly from the TypeScript source; theorems check the specification's
claims against them.
-/

/-- Final classification of a candidate register (`RegisterInfo.type` in the
source: one of the string literals `flip_flop`, `latch`,
`potential_register`). -/
inductive RegType where
  | flip_flop
  | latch
  | potential_register
deriving DecidableEq, Repr

/-- `RegisterInfo` from the source.  The optional `clock`/`reset` fields are
never assigned on the analysis path modelled here but are kept for fidelity. -/
structure RegisterInfo where
  name : String
  width : Nat
  type : RegType
  file : String
  line : Nat
  module : String
  clock : Option String := none
  reset : Option String := none
deriving DecidableEq, Repr

/-- `ModuleInfo` from the source. -/
structure ModuleInfo where
  name : String
  file : String
  line : Nat
  registerCount : Nat
deriving DecidableEq, Repr

/-- `SyntaxLeaf` from the source.  The source's field `end` is renamed `stop`
(`end` is a Lean keyword). -/
structure SyntaxLeaf where
  tag : String
  start : Nat
  stop : Nat
  text : String
deriving DecidableEq, Repr

/-- The reconstructed tree: interior `SyntaxNode`s (tag plus ordered
children) and `SyntaxLeaf` leaves, as one inductive.  In the source the two
are distinguished by the presence of the `children` / `text` properties. -/
inductive SyntaxTree where
  | node (tag : String) (children : List SyntaxTree)
  | leaf (tag : String) (start stop : Nat) (text : String)
deriving Repr

/- ---------------------------------------------------------------------
Character classes and literal matching used to model the two anchored
regular expressions of `parseTreeStructure`.  JavaScript's `\s` also
matches some non-ASCII space characters; the dump format only produces
ASCII whitespace, and we model the ASCII subset. -/

def isJsSpace (c : Char) : Bool :=
  c = ' ' || c = '\t' || c = '\n' || c = '\x0b' || c = '\x0c' || c = '\r'

/-- JavaScript `\w`, i.e. ASCII letters, digits and underscore. -/
def isJsWord (c : Char) : Bool :=
  c.isAlpha || c.isDigit || c = '_'

/-- Consume an exact literal from the front of a character list
(`none` when the literal is not there). -/
def dropLit : List Char → List Char → Option (List Char)
  | [], cs => some cs
  | _ :: _, [] => none
  | p :: ps, c :: cs => if c = p then dropLit ps cs else none

/-- Digits-to-number (base 10), for `parseInt` applied to a `\d+` capture. -/
def decDigitsToNat (cs : List Char) : Nat :=
  cs.foldl (fun a c => a * 10 + (c.toNat - 48)) 0

/-- Model of matching `/^(\s*)Node @\d+ \(tag: (\w+)\)/` against one line.
Returns the length of the leading-whitespace capture and the tag capture.
Every quantifier in the pattern is followed by a character outside its
class, so the greedy match is the unique one and no backtracking arises. -/
def nodeMatchL (cs : List Char) : Option (Nat × String) :=
  let ws := cs.takeWhile isJsSpace
  match dropLit "Node @".toList (cs.dropWhile isJsSpace) with
  | none => none
  | some r1 =>
    if (r1.takeWhile Char.isDigit).isEmpty then none else
    match dropLit " (tag: ".toList (r1.dropWhile Char.isDigit) with
    | none => none
    | some r2 =>
      let w := r2.takeWhile isJsWord
      if w.isEmpty then none else
      match r2.dropWhile isJsWord with
      | ')' :: _ => some (ws.length, String.mk w)
      | _ => none

def nodeMatch (line : String) : Option (Nat × String) :=
  nodeMatchL line.toList

/-- Model of matching
`/^(\s*)Leaf @\d+ \(#"?(\w+)"? @(\d+)-(\d+): "([^"]*)"\)/` against one line.
Returns whitespace length, tag, start, end offsets and the quoted text.
The optional quotes are consumed when present; as for `nodeMatchL`, the
greedy match is the unique one. -/
def leafMatchL (cs : List Char) : Option (Nat × String × Nat × Nat × String) :=
  let ws := cs.takeWhile isJsSpace
  match dropLit "Leaf @".toList (cs.dropWhile isJsSpace) with
  | none => none
  | some r1 =>
    if (r1.takeWhile Char.isDigit).isEmpty then none else
    match dropLit " (#".toList (r1.dropWhile Char.isDigit) with
    | none => none
    | some r2 =>
      let r2q := match r2 with | '"' :: t => t | t => t
      let w := r2q.takeWhile isJsWord
      if w.isEmpty then none else
      let r3 := r2q.dropWhile isJsWord
      let r3q := match r3 with | '"' :: t => t | t => t
      match dropLit " @".toList r3q with
      | none => none
      | some r4 =>
        let d1 := r4.takeWhile Char.isDigit
        if d1.isEmpty then none else
        match r4.dropWhile Char.isDigit with
        | '-' :: r5 =>
          let d2 := r5.takeWhile Char.isDigit
          if d2.isEmpty then none else
          match dropLit ": \"".toList (r5.dropWhile Char.isDigit) with
          | none => none
          | some r6 =>
            let txt := r6.takeWhile (fun c => c ≠ '"')
            match r6.dropWhile (fun c => c ≠ '"') with
            | '"' :: ')' :: _ =>
              some (ws.length, String.mk w, decDigitsToNat d1, decDigitsToNat d2,
                String.mk txt)
            | _ => none
        | _ => none

def leafMatch (line : String) : Option (Nat × String × Nat × Nat × String) :=
  leafMatchL line.toList

/- ---------------------------------------------------------------------
Tree reconstruction (`parseTreeStructure`).  The source mutates node
objects held on a stack and keeps a `root` reference to the bottom node;
we model this with frames whose accumulated children are attached to the
parent frame at pop time (a node child is pushed into the parent's
children strictly before anything later reaches that parent, so the child
order is identical). -/

/-- One open interior node on the reconstruction stack. -/
structure Frame where
  tag : String
  children : List SyntaxTree

/-- Close the frame `f` and fold it (and, while the stack stays longer than
`level`, further frames) into the stack below.  Closing the bottom frame
yields the completed tree as the new root: the source assigned `root` when
that node was pushed onto the empty stack and the object is complete once
popped.  Models `while (stack.length > indent) stack.pop()`. -/
def closeInto (level : Nat) (f : Frame) :
    List Frame → Option SyntaxTree → List Frame × Option SyntaxTree
  | [], _ => ([], some (SyntaxTree.node f.tag f.children))
  | p :: ps, root =>
    let p2 : Frame := ⟨p.tag, p.children ++ [SyntaxTree.node f.tag f.children]⟩
    if ps.length + 1 ≤ level then (p2 :: ps, root)
    else closeInto level p2 ps root

/-- Pop the stack down to `level` entries.  The source compares
`stack.length > indent` where `indent` may be fractional (odd whitespace);
popping stops at `floor indent`, which Nat division already yields. -/
def popTo (level : Nat) (stack : List Frame) (root : Option SyntaxTree) :
    List Frame × Option SyntaxTree :=
  match stack with
  | [] => ([], root)
  | f :: rest =>
    if rest.length + 1 ≤ level then (f :: rest, root)
    else closeInto level f rest root

/-- Reconstructor state: open frames (head = top of stack) and the root of
the most recently completed top-level tree. -/
structure PTState where
  stack : List Frame
  root : Option SyntaxTree

/-- Process one line of the dump: an interior-node line pushes a new frame
(after popping to its indentation level), a leaf line appends a leaf to the
current top frame (a leaf with an empty stack is dropped), any other line
is ignored. -/
def processLine (st : PTState) (line : String) : PTState :=
  match nodeMatch line with
  | some (wsLen, tag) =>
    let indent := wsLen / 2
    let (stack, root) := popTo indent st.stack st.root
    ⟨⟨tag, []⟩ :: stack, root⟩
  | none =>
    match leafMatch line with
    | some (wsLen, tag, start, stop, text) =>
      let indent := wsLen / 2
      let (stack, root) := popTo indent st.stack st.root
      match stack with
      | [] => ⟨[], root⟩
      | f :: rest => ⟨⟨f.tag, f.children ++ [SyntaxTree.leaf tag start stop text]⟩ :: rest, root⟩
    | none => st

/-- Fold the remaining open frames at end of input; the bottom of the stack
is the tree the source's `root` variable points to. -/
def finalizeState (st : PTState) : Option SyntaxTree :=
  (popTo 0 st.stack st.root).2

def parseTreeLines (lines : List String) : Option SyntaxTree :=
  finalizeState (lines.foldl processLine ⟨[], none⟩)

/-- JavaScript `text.split('\n')`: the list of maximal newline-free
segments; empty input gives one empty segment. -/
def splitNl : List Char → List (List Char)
  | [] => [[]]
  | c :: cs =>
    if c = '\n' then [] :: splitNl cs
    else
      match splitNl cs with
      | l :: ls => (c :: l) :: ls
      | [] => [[c]]

/-- `parseTreeStructure` from the source: split the dump into lines and run
the stack machine; `none` models the `null` result (`ParseFailure`). -/
def parseTreeStructure (output : String) : Option SyntaxTree :=
  parseTreeLines ((splitNl output.toList).map String.mk)

/- ---------------------------------------------------------------------
Tree query layer (`findNodesByTag`, `findFirstNodeByTag`, `getAllLeaves`).
In the source a leaf never satisfies the `'children' in node` test, so tag
matches on leaves contribute nothing. -/

mutual
/-- All descendant interior nodes (the node itself included) with the given
tag, in pre-order. -/
def findNodesByTag : SyntaxTree → String → List SyntaxTree
  | .leaf _ _ _ _, _ => []
  | .node tg cs, tag =>
    (if tg = tag then [SyntaxTree.node tg cs] else []) ++ findNodesByTagList cs tag
def findNodesByTagList : List SyntaxTree → String → List SyntaxTree
  | [], _ => []
  | c :: cs, tag => findNodesByTag c tag ++ findNodesByTagList cs tag
end

mutual
/-- First interior node with the given tag, in pre-order. -/
def findFirstNodeByTag : SyntaxTree → String → Option SyntaxTree
  | .leaf _ _ _ _, _ => none
  | .node tg cs, tag =>
    if tg = tag then some (SyntaxTree.node tg cs) else findFirstNodeByTagList cs tag
def findFirstNodeByTagList : List SyntaxTree → String → Option SyntaxTree
  | [], _ => none
  | c :: cs, tag =>
    match findFirstNodeByTag c tag with
    | some n => some n
    | none => findFirstNodeByTagList cs tag
end

mutual
/-- Every leaf of the subtree, in left-to-right document order. -/
def getAllLeaves : SyntaxTree → List SyntaxLeaf
  | .leaf t s e x => [⟨t, s, e, x⟩]
  | .node _ cs => getAllLeavesList cs
def getAllLeavesList : List SyntaxTree → List SyntaxLeaf
  | [] => []
  | c :: cs => getAllLeaves c ++ getAllLeavesList cs
end

/- ---------------------------------------------------------------------
Width resolution (`parsePackedDimensions`) and line numbers. -/

def isHexDigitChar (c : Char) : Bool :=
  c.isDigit || ('a' ≤ c && c ≤ 'f') || ('A' ≤ c && c ≤ 'F')

def hexDigitsToNat (cs : List Char) : Nat :=
  cs.foldl (fun a c =>
    a * 16 + (if c.isDigit then c.toNat - 48
      else if 'a' ≤ c && c ≤ 'f' then c.toNat - 87 else c.toNat - 55)) 0

/-- Model of JavaScript `parseInt(s)` with no radix argument: skip leading
whitespace, read an optional sign, then the longest prefix of digits (hex
digits after a `0x`/`0X` marker); `none` models `NaN` (no digits). -/
def jsParseInt (s : String) : Option Int :=
  let cs := s.toList.dropWhile isJsSpace
  let signed : Int × List Char :=
    match cs with
    | '-' :: r => (-1, r)
    | '+' :: r => (1, r)
    | r => (1, r)
  match signed.2 with
  | '0' :: 'x' :: r =>
    let ds := r.takeWhile isHexDigitChar
    if ds.isEmpty then none else some (signed.1 * (hexDigitsToNat ds : Int))
  | '0' :: 'X' :: r =>
    let ds := r.takeWhile isHexDigitChar
    if ds.isEmpty then none else some (signed.1 * (hexDigitsToNat ds : Int))
  | r =>
    let ds := r.takeWhile Char.isDigit
    if ds.isEmpty then none else some (signed.1 * (decDigitsToNat ds : Int))

/-- `s.startsWith(p)` on the underlying character lists. -/
def strStartsWith (s p : String) : Bool :=
  (dropLit p.toList s.toList).isSome

/-- `parsePackedDimensions`: filter the subtree's leaves to those whose tag
starts with `TK_`; with at least two such leaves whose texts both parse as
integers the width is `abs (msb - lsb) + 1`, otherwise 1. -/
def parsePackedDimensions (dimNode : SyntaxTree) : Nat :=
  let numbers := (getAllLeaves dimNode).filter fun l => strStartsWith l.tag "TK_"
  match numbers with
  | a :: b :: _ =>
    match jsParseInt a.text, jsParseInt b.text with
    | some msb, some lsb => (msb - lsb).natAbs + 1
    | _, _ => 1
  | _ => 1

/-- Width of a declaration: its first `kPackedDimensions` subtree if any,
else 1 (shared shape of the data- and port-declaration paths). -/
def subtreeWidth (n : SyntaxTree) : Nat :=
  match findFirstNodeByTag n "kPackedDimensions" with
  | some d => parsePackedDimensions d
  | none => 1

/-- `getLineNumber`: 1 plus the number of newline characters among the first
`byteOffset` characters of the content. -/
def getLineNumber (content : String) (byteOffset : Nat) : Nat :=
  1 + ((content.toList.take byteOffset).count '\n')

/-- `getLineNumberFromNode`: line of the subtree's first leaf, 1 if none. -/
def getLineNumberFromNode (n : SyntaxTree) (content : String) : Nat :=
  match getAllLeaves n with
  | [] => 1
  | l :: _ => getLineNumber content l.start

/- ---------------------------------------------------------------------
Declaration extraction (`parseDataDeclaration`, `parsePortDeclaration`). -/

/-- Storage kind of a data declaration: text of the first leaf among
`wire`/`reg`/`logic` (the source's loop breaks at the first hit), default
`wire`. -/
def declKind (dataDecl : SyntaxTree) : String :=
  match (getAllLeaves dataDecl).find? (fun l =>
      l.text = "wire" || l.text = "reg" || l.text = "logic") with
  | some l => l.text
  | none => "wire"

/-- `parseDataDeclaration` (the `registers` field of its result): `reg` and
`logic` declarations yield one candidate per `kRegisterVariable` subtree
that has a `SymbolIdentifier` leaf; anything else yields none.  `file` and
`module` are filled in by the caller. -/
def parseDataDeclaration (dataDecl : SyntaxTree) (content : String) : List RegisterInfo :=
  if declKind dataDecl = "reg" || declKind dataDecl = "logic" then
    let width := subtreeWidth dataDecl
    (findNodesByTag dataDecl "kRegisterVariable").filterMap fun rv =>
      ((getAllLeaves rv).find? fun l => l.tag = "SymbolIdentifier").map fun nl =>
        { name := nl.text, width := width, type := RegType.potential_register,
          file := "", line := getLineNumber content nl.start, module := "" }
  else []

/-- Whether some leaf of the port declaration is the keyword `output`. -/
def portIsOutput (portDecl : SyntaxTree) : Bool :=
  (getAllLeaves portDecl).any fun l => l.text = "output"

/-- Port type: the source's loop assigns on every `wire`/`reg`/`logic` leaf
without breaking, so the last such leaf wins; default `wire`. -/
def portKind (portDecl : SyntaxTree) : String :=
  (getAllLeaves portDecl).foldl
    (fun t l => if l.text = "wire" || l.text = "reg" || l.text = "logic" then l.text else t)
    "wire"

/-- The identifier leaves of a port declaration that name ports (identifier
tag, text not a direction or type keyword). -/
def portNameLeaves (portDecl : SyntaxTree) : List SyntaxLeaf :=
  (getAllLeaves portDecl).filter fun l =>
    l.tag = "SymbolIdentifier" &&
    !(l.text = "input" || l.text = "output" || l.text = "inout" ||
      l.text = "wire" || l.text = "reg" || l.text = "logic")

/-- `parsePortDeclaration`: candidates only for `output` ports of type
`reg`/`logic`; one candidate per remaining identifier leaf. -/
def parsePortDeclaration (portDecl : SyntaxTree) (content : String) : List RegisterInfo :=
  if portIsOutput portDecl && (portKind portDecl = "reg" || portKind portDecl = "logic") then
    let width := subtreeWidth portDecl
    (portNameLeaves portDecl).map fun nl =>
      { name := nl.text, width := width, type := RegType.potential_register,
        file := "", line := getLineNumber content nl.start, module := "" }
  else []

/- ---------------------------------------------------------------------
Procedural-block classifier (`refineRegisters`). -/

/-- A block is edge-triggered when some `kEventExpression` subtree contains
a `posedge` or `negedge` leaf. -/
def hasClockEdge (alwaysNode : SyntaxTree) : Bool :=
  (findNodesByTag alwaysNode "kEventExpression").any fun e =>
    (getAllLeaves e).any fun l => l.text = "posedge" || l.text = "negedge"

/-- `findAssignedSignals`: for each assignment subtree (net-variable,
blocking or non-blocking), the first `SymbolIdentifier` leaf of its
`kLPValue` left-hand side, if any. -/
def findAssignedSignals (n : SyntaxTree) : List String :=
  let assignments :=
    findNodesByTag n "kNetVariableAssignment" ++
    findNodesByTag n "kBlockingAssignmentStatement" ++
    findNodesByTag n "kNonblockingAssignmentStatement"
  assignments.filterMap fun a =>
    match findFirstNodeByTag a "kLPValue" with
    | none => none
    | some lhs => ((getAllLeaves lhs).find? fun l => l.tag = "SymbolIdentifier").map
        fun l => l.text

/-- Names assigned in edge-triggered blocks (the source's `clockedSignals`
set; a list here — only membership is consulted). -/
def clockedSignals (alwaysNodes : List SyntaxTree) : List String :=
  ((alwaysNodes.filter hasClockEdge).map findAssignedSignals).flatten

/-- Names assigned in level-sensitive blocks (the source's `latchSignals`). -/
def latchSignals (alwaysNodes : List SyntaxTree) : List String :=
  ((alwaysNodes.filter fun a => !hasClockEdge a).map findAssignedSignals).flatten

/-- `refineRegisters`: the source updates each candidate's `type` in place;
modelled as a map.  Clocked membership is checked first, then latch
membership, and the fall-through default is `flip_flop`. -/
def refineRegisters (alwaysNodes : List SyntaxTree) (registers : List RegisterInfo) :
    List RegisterInfo :=
  let clocked := clockedSignals alwaysNodes
  let latch := latchSignals alwaysNodes
  registers.map fun r =>
    if r.name ∈ clocked then { r with type := RegType.flip_flop }
    else if r.name ∈ latch then { r with type := RegType.latch }
    else { r with type := RegType.flip_flop }

/- ---------------------------------------------------------------------
Module extraction (`getModuleName`, `extractRegistersFromModule`,
`analyzeFile`).  `analyzeFile` is modelled from the point where the
external tool's dump text is in hand; invoking the tool and reading the
file are out of scope. -/

/-- `getModuleName`: first `SymbolIdentifier` leaf of the module header
whose text is not `module`. -/
def getModuleName (moduleNode : SyntaxTree) : Option String :=
  match findFirstNodeByTag moduleNode "kModuleHeader" with
  | none => none
  | some header =>
    ((getAllLeaves header).find? fun l =>
        l.tag = "SymbolIdentifier" && l.text ≠ "module").map fun l => l.text

/-- `extractRegistersFromModule`: data-declaration candidates, then
output-`reg`/`logic` port candidates from the header, refined against the
module's always blocks. -/
def extractRegistersFromModule (moduleNode : SyntaxTree)
    (filepath moduleName content : String) : List RegisterInfo :=
  let dataRegs :=
    ((findNodesByTag moduleNode "kDataDeclaration").map fun d =>
      (parseDataDeclaration d content).map fun r =>
        { r with file := filepath, module := moduleName }).flatten
  let portRegs :=
    match findFirstNodeByTag moduleNode "kModuleHeader" with
    | none => []
    | some header =>
      ((findNodesByTag header "kPortDeclaration").map fun p =>
        (parsePortDeclaration p content).map fun r =>
          { r with file := filepath, module := moduleName }).flatten
  refineRegisters (findNodesByTag moduleNode "kAlwaysStatement") (dataRegs ++ portRegs)

/-- `analyzeFile` given the dump text: a dump with no root yields empty
results; otherwise every named module contributes its registers and a
summary. -/
def analyzeFile (filepath treeOutput content : String) :
    List RegisterInfo × List ModuleInfo :=
  match parseTreeStructure treeOutput with
  | none => ([], [])
  | some tree =>
    (findNodesByTag tree "kModuleDeclaration").foldl
      (fun acc m =>
        match getModuleName m with
        | none => acc
        | some name =>
          let regs := extractRegistersFromModule m filepath name content
          (acc.1 ++ regs,
           acc.2 ++ [⟨name, filepath, getLineNumberFromNode m content, regs.length⟩]))
      ([], [])

/- ---------------------------------------------------------------------
Aggregator (`processResult` for the `registers`/`all` analysis types). -/

/-- The classification-count view (`byType`): the source folds
`byType[reg.type] = (byType[reg.type] || 0) + 1` over all registers; an
absent key reads as 0. -/
def buildByType (regs : List RegisterInfo) : RegType → Nat :=
  regs.foldl (fun acc r => fun t => if t = r.type then acc t + 1 else acc t) (fun _ => 0)

/-- The per-module view (`byModule`): the source appends each register to
its module's bucket in sequence order; an absent key reads as the empty
list. -/
def buildByModule (regs : List RegisterInfo) : String → List RegisterInfo :=
  regs.foldl (fun acc r => fun m => if m = r.module then acc m ++ [r] else acc m)
    (fun _ => [])

/-- `AnalysisResult` from the source; the two record-typed views are
modelled as total functions with the source's missing-key defaults. -/
structure AnalysisResult where
  registers : List RegisterInfo
  totalRegisters : Nat
  byType : RegType → Nat
  byModule : String → List RegisterInfo
  totalBits : Nat
  modules : List ModuleInfo

/-- The aggregation loop of `processResult`: concatenate the per-file
register and module lists, then derive the views.  The source computes
`byType`, `byModule` and `totalBits` in one pass over `allRegisters`; the
three accumulators are independent, so they are split into three folds. -/
def mergeFiles (fileResults : List (List RegisterInfo × List ModuleInfo)) :
    AnalysisResult :=
  let allRegisters := (fileResults.map Prod.fst).flatten
  let allModules := (fileResults.map Prod.snd).flatten
  { registers := allRegisters
    totalRegisters := allRegisters.length
    byType := buildByType allRegisters
    byModule := buildByModule allRegisters
    totalBits := allRegisters.foldl (fun acc r => acc + r.width) 0
    modules := allModules }

/-- The per-file loop of `processResult`: analyze each file independently
and aggregate.  Each batch entry is (filepath, dump text, source text). -/
def analyzeBatch (files : List (String × String × String)) : AnalysisResult :=
  mergeFiles (files.map fun f => analyzeFile f.1 f.2.1 f.2.2)

/- ---------------------------------------------------------------------
Sample inputs used by the witnesses. -/

/-- An edge-triggered always block assigning `q`. -/
def clkBlockQ : SyntaxTree :=
  .node "kAlwaysStatement"
    [.node "kEventExpression" [.leaf "posedge" 0 7 "posedge", .leaf "SymbolIdentifier" 8 11 "clk"],
     .node "kNonblockingAssignmentStatement"
       [.node "kLPValue" [.leaf "SymbolIdentifier" 20 21 "q"]]]

/-- A level-sensitive always block assigning `q`. -/
def combBlockQ : SyntaxTree :=
  .node "kAlwaysStatement"
    [.node "kBlockingAssignmentStatement"
      [.node "kLPValue" [.leaf "SymbolIdentifier" 30 31 "q"]]]

/-- A level-sensitive always block assigning `l`. -/
def combBlockL : SyntaxTree :=
  .node "kAlwaysStatement"
    [.node "kBlockingAssignmentStatement"
      [.node "kLPValue" [.leaf "SymbolIdentifier" 40 41 "l"]]]

/-- Three procedural blocks: `q` is assigned both in a clocked and in a
combinational block, `l` only in a combinational block. -/
def sampleAlways : List SyntaxTree := [clkBlockQ, combBlockQ, combBlockL]

def regQ : RegisterInfo :=
  { name := "q", width := 1, type := RegType.potential_register,
    file := "", line := 1, module := "" }

def regL : RegisterInfo :=
  { name := "l", width := 1, type := RegType.potential_register,
    file := "", line := 2, module := "" }

def regU : RegisterInfo :=
  { name := "u", width := 1, type := RegType.potential_register,
    file := "", line := 3, module := "" }

/-- Packed-dimension subtree for `[7:0]` as Verible dumps it. -/
def dim70 : SyntaxTree :=
  .node "kPackedDimensions"
    [.node "kDimensionRange"
      [.leaf "[" 10 11 "[",
       .node "kExpression" [.leaf "TK_DecNumber" 11 12 "7"],
       .leaf ":" 12 13 ":",
       .node "kExpression" [.leaf "TK_DecNumber" 13 14 "0"],
       .leaf "]" 14 15 "]"]]

/-- Packed-dimension subtree for `[0:31]`. -/
def dim031 : SyntaxTree :=
  .node "kPackedDimensions"
    [.node "kDimensionRange"
      [.leaf "[" 10 11 "[",
       .node "kExpression" [.leaf "TK_DecNumber" 11 12 "0"],
       .leaf ":" 12 13 ":",
       .node "kExpression" [.leaf "TK_DecNumber" 13 15 "31"],
       .leaf "]" 15 16 "]"]]

/-- Sample `reg` data declaration with two register variables. -/
def dataDeclReg : SyntaxTree :=
  .node "kDataDeclaration"
    [.leaf "reg" 5 8 "reg",
     .node "kRegisterVariable" [.leaf "SymbolIdentifier" 9 10 "a"],
     .node "kRegisterVariable" [.leaf "SymbolIdentifier" 12 13 "b"]]

/-- Sample `wire` data declaration. -/
def dataDeclWire : SyntaxTree :=
  .node "kDataDeclaration"
    [.leaf "wire" 5 9 "wire",
     .node "kRegisterVariable" [.leaf "SymbolIdentifier" 10 11 "w"]]

/-- Sample output-`reg` port declaration. -/
def portDeclOut : SyntaxTree :=
  .node "kPortDeclaration"
    [.leaf "output" 0 6 "output", .leaf "reg" 7 10 "reg",
     .leaf "SymbolIdentifier" 11 15 "data"]

/-- A well-formed dump of one module `top` declaring `reg [7:0] q`, with a
clocked block assigning `q`. -/
def goodDump : String :=
  "Node @0 (tag: kModuleDeclaration)\n" ++
  "  Node @1 (tag: kModuleHeader)\n" ++
  "    Leaf @2 (#SymbolIdentifier @7-10: \"top\")\n" ++
  "  Node @3 (tag: kDataDeclaration)\n" ++
  "    Leaf @4 (#\"reg\" @12-15: \"reg\")\n" ++
  "    Node @5 (tag: kPackedDimensions)\n" ++
  "      Leaf @6 (#TK_DecNumber @17-18: \"7\")\n" ++
  "      Leaf @7 (#TK_DecNumber @19-20: \"0\")\n" ++
  "    Node @8 (tag: kRegisterVariable)\n" ++
  "      Leaf @9 (#SymbolIdentifier @22-23: \"q\")\n" ++
  "  Node @10 (tag: kAlwaysStatement)\n" ++
  "    Node @11 (tag: kEventExpression)\n" ++
  "      Leaf @12 (#\"posedge\" @40-47: \"posedge\")\n" ++
  "    Node @13 (tag: kNonblockingAssignmentStatement)\n" ++
  "      Node @14 (tag: kLPValue)\n" ++
  "        Leaf @15 (#SymbolIdentifier @60-61: \"q\")\n"

/-- The source text matching `goodDump`, used for line-number resolution. -/
def goodSrc : String :=
  "module top;\nreg [7:0] q;\nalways @(posedge clk) q <= q;\nendmodule\n"

/- ---------------------------------------------------------------------
Claims C1, C2, C9: the classifier. -/

/-- Claim C1: after all procedural blocks are processed, a candidate whose
name is in the clocked-signal set is classified `flip_flop` (regardless of
latch-set membership), and a name in the latch set but not the clocked set
is classified `latch`: `refineRegisters` gives clocked-set membership
precedence. -/
theorem refineRegisters_clocked_precedence
    (alwaysNodes : List SyntaxTree) (regs : List RegisterInfo)
    (i : Nat) (h : i < regs.length) :
    (regs[i].name ∈ clockedSignals alwaysNodes →
      (refineRegisters alwaysNodes regs)[i]? =
        some { regs[i] with type := RegType.flip_flop }) ∧
    (regs[i].name ∉ clockedSignals alwaysNodes →
      regs[i].name ∈ latchSignals alwaysNodes →
      (refineRegisters alwaysNodes regs)[i]? =
        some { regs[i] with type := RegType.latch }) := by
  constructor
  · intro hc
    simp [refineRegisters, List.getElem?_eq_getElem, h, hc]
  · intro hc hl
    simp [refineRegisters, List.getElem?_eq_getElem, h, hc, hl]

/-- Witness for C1 on `sampleAlways`: `q` is in both signal sets and
classifies `flip_flop`; `l` is only in the latch set and classifies
`latch`. -/
theorem refineRegisters_clocked_precedence_witness :
    (0 < ([regQ, regL] : List RegisterInfo).length) ∧
    (1 < ([regQ, regL] : List RegisterInfo).length) ∧
    (refineRegisters sampleAlways [regQ, regL])[0]? =
      some { regQ with type := RegType.flip_flop } ∧
    (refineRegisters sampleAlways [regQ, regL])[1]? =
      some { regL with type := RegType.latch } :=
  ⟨by decide, by decide,
   (refineRegisters_clocked_precedence sampleAlways [regQ, regL] 0 (by decide)).1
     (by decide),
   (refineRegisters_clocked_precedence sampleAlways [regQ, regL] 1 (by decide)).2
     (by decide) (by decide)⟩

/-- Claim C2: a candidate assigned in no procedural block is classified
`flip_flop` (never `latch`, never `potential_register`), and no candidate
retains the provisional `potential_register` classification after
`refineRegisters` runs. -/
theorem refineRegisters_default_flipflop
    (alwaysNodes : List SyntaxTree) (regs : List RegisterInfo) :
    (∀ i (h : i < regs.length),
      regs[i].name ∉ clockedSignals alwaysNodes →
      regs[i].name ∉ latchSignals alwaysNodes →
      (refineRegisters alwaysNodes regs)[i]? =
        some { regs[i] with type := RegType.flip_flop }) ∧
    (∀ r ∈ refineRegisters alwaysNodes regs, r.type ≠ RegType.potential_register) := by
  constructor
  · intro i h hc hl
    simp [refineRegisters, List.getElem?_eq_getElem, h, hc, hl]
  · intro r hr
    simp only [refineRegisters, List.mem_map] at hr
    obtain ⟨r0, _, rfl⟩ := hr
    by_cases hc : r0.name ∈ clockedSignals alwaysNodes
    · simp [hc]
    · by_cases hl : r0.name ∈ latchSignals alwaysNodes <;> simp [hc, hl]

/-- Witness for C2: `u` is assigned in no block of `sampleAlways` and
classifies `flip_flop`. -/
theorem refineRegisters_default_flipflop_witness :
    (0 < ([regU] : List RegisterInfo).length) ∧
    (refineRegisters sampleAlways [regU])[0]? =
      some { regU with type := RegType.flip_flop } :=
  ⟨by decide,
   (refineRegisters_default_flipflop sampleAlways [regU]).1 0 (by decide)
     (by decide) (by decide)⟩

/-- Claim C9: `refineRegisters` changes only the classification field: the
output has the same length as the input, and position by position the
name, width, line, module and file fields are unchanged. -/
theorem refineRegisters_frame
    (alwaysNodes : List SyntaxTree) (regs : List RegisterInfo) :
    (refineRegisters alwaysNodes regs).length = regs.length ∧
    List.Forall₂ (fun r r2 : RegisterInfo =>
        r2.name = r.name ∧ r2.width = r.width ∧ r2.line = r.line ∧
        r2.module = r.module ∧ r2.file = r.file)
      regs (refineRegisters alwaysNodes regs) := by
  refine ⟨by simp [refineRegisters], ?_⟩
  simp only [refineRegisters]
  rw [List.forall₂_map_right_iff]
  apply List.forall₂_same.2
  intro r _
  by_cases hc : r.name ∈ clockedSignals alwaysNodes
  · simp [hc]
  · by_cases hl : r.name ∈ latchSignals alwaysNodes <;> simp [hc, hl]

/- ---------------------------------------------------------------------
Claim C3: width resolution. -/

/-- Claim C3: width resolution filters the subtree's leaves to the
numeric-literal-tagged ones (tag starting `TK_`); with at least two such
leaves whose first two texts parse as integers MSB and LSB the width is
`abs (MSB - LSB) + 1`, and in every other case (fewer than two such
leaves, or a non-parsing first or second text) it is 1.  In particular
`[7:0]` resolves to 8 and `[0:31]` to 32. -/
theorem parsePackedDimensions_spec :
    (∀ d a b rest,
      ((getAllLeaves d).filter fun l => strStartsWith l.tag "TK_") = a :: b :: rest →
      (∀ m l : Int, jsParseInt a.text = some m → jsParseInt b.text = some l →
        parsePackedDimensions d = (m - l).natAbs + 1) ∧
      ((jsParseInt a.text = none ∨ jsParseInt b.text = none) →
        parsePackedDimensions d = 1)) ∧
    (∀ d, ((getAllLeaves d).filter fun l => strStartsWith l.tag "TK_").length < 2 →
      parsePackedDimensions d = 1) ∧
    parsePackedDimensions dim70 = 8 ∧
    parsePackedDimensions dim031 = 32 := by
  refine ⟨?_, ?_, by decide, by decide⟩
  · intro d a b rest hfilter
    unfold parsePackedDimensions
    rw [hfilter]
    constructor
    · intro m l hm hl
      simp [hm, hl]
    · rintro (hm | hm) <;> simp [hm]
  · intro d hlen
    unfold parsePackedDimensions
    rcases hcase : (getAllLeaves d).filter fun l => strStartsWith l.tag "TK_" with
      _ | ⟨a, _ | ⟨b, rest⟩⟩
    · rw [hcase]
    · rw [hcase]
    · rw [hcase] at hlen
      simp at hlen
      omega

/-- Witness for C3: on `dim70` the filtered leaves are the two decimal
literals `7` and `0`, they parse, and the width is `abs (7 - 0) + 1 = 8`. -/
theorem parsePackedDimensions_spec_witness :
    ((getAllLeaves dim70).filter fun l => strStartsWith l.tag "TK_") =
      [⟨"TK_DecNumber", 11, 12, "7"⟩, ⟨"TK_DecNumber", 13, 14, "0"⟩] ∧
    jsParseInt "7" = some 7 ∧ jsParseInt "0" = some 0 ∧
    parsePackedDimensions dim70 = ((7 : Int) - 0).natAbs + 1 :=
  ⟨by decide, by decide, by decide,
   (parsePackedDimensions_spec.1 dim70 ⟨"TK_DecNumber", 11, 12, "7"⟩
      ⟨"TK_DecNumber", 13, 14, "0"⟩ [] (by decide)).1 7 0 (by decide) (by decide)⟩

/- ---------------------------------------------------------------------
Claims C4, C5: declaration extraction. -/

/-- If the fold that tracks the last `wire`/`reg`/`logic` leaf ends on
`reg` or `logic`, either the initial value already was that or some leaf
carries that text. -/
theorem foldKind_mem (ls : List SyntaxLeaf) : ∀ init : String,
    ((ls.foldl (fun t l =>
        if l.text = "wire" || l.text = "reg" || l.text = "logic" then l.text else t)
      init = "reg") ∨
     (ls.foldl (fun t l =>
        if l.text = "wire" || l.text = "reg" || l.text = "logic" then l.text else t)
      init = "logic")) →
    (init = "reg" ∨ init = "logic") ∨ ∃ l ∈ ls, l.text = "reg" ∨ l.text = "logic" := by
  induction ls with
  | nil => intro init h; exact Or.inl h
  | cons l ls ih =>
    intro init h
    simp only [List.foldl_cons] at h
    rcases ih _ h with h2 | h2
    · by_cases hc : (l.text = "wire" || l.text = "reg" || l.text = "logic") = true
      · rw [if_pos hc] at h2
        exact Or.inr ⟨l, by simp, h2⟩
      · rw [if_neg hc] at h2
        exact Or.inl h2
    · obtain ⟨x, hx, hx2⟩ := h2
      exact Or.inr ⟨x, by simp [hx], hx2⟩

/-- Claim C4: the storage kind is the text of the first leaf whose text is
`wire`, `reg` or `logic` (default `wire`); `parseDataDeclaration` returns
no candidates unless the kind is `reg` or `logic`, and then one candidate
per `kRegisterVariable` subtree that has a `SymbolIdentifier` leaf, named
by that leaf. -/
theorem parseDataDeclaration_spec :
    (∀ d l, ((getAllLeaves d).find? fun l =>
        l.text = "wire" || l.text = "reg" || l.text = "logic") = some l →
      declKind d = l.text) ∧
    (∀ d, ((getAllLeaves d).find? fun l =>
        l.text = "wire" || l.text = "reg" || l.text = "logic") = none →
      declKind d = "wire") ∧
    (∀ d c, ¬(declKind d = "reg" ∨ declKind d = "logic") →
      parseDataDeclaration d c = []) ∧
    (∀ d c, (declKind d = "reg" ∨ declKind d = "logic") →
      (parseDataDeclaration d c).map (fun r => r.name) =
        (findNodesByTag d "kRegisterVariable").filterMap fun rv =>
          ((getAllLeaves rv).find? fun l => l.tag = "SymbolIdentifier").map
            fun l => l.text) := by
  refine ⟨?_, ?_, ?_, ?_⟩
  · intro d l h
    unfold declKind
    rw [h]
  · intro d h
    unfold declKind
    rw [h]
  · intro d c h
    push_neg at h
    simp [parseDataDeclaration, h.1, h.2]
  · intro d c h
    have hcond : (declKind d = "reg" || declKind d = "logic") = true := by
      rcases h with h | h <;> simp [h]
    simp only [parseDataDeclaration, hcond, if_true, List.map_filterMap,
      Option.map_map]
    congr 1

/-- Witness for C4: the `wire` declaration yields nothing; the `reg`
declaration yields candidates named by its register-variable identifier
leaves. -/
theorem parseDataDeclaration_spec_witness :
    (¬(declKind dataDeclWire = "reg" ∨ declKind dataDeclWire = "logic")) ∧
    parseDataDeclaration dataDeclWire "" = [] ∧
    (declKind dataDeclReg = "reg" ∨ declKind dataDeclReg = "logic") ∧
    (parseDataDeclaration dataDeclReg "").map (fun r => r.name) =
      (findNodesByTag dataDeclReg "kRegisterVariable").filterMap fun rv =>
        ((getAllLeaves rv).find? fun l => l.tag = "SymbolIdentifier").map
          fun l => l.text :=
  ⟨by decide, parseDataDeclaration_spec.2.2.1 dataDeclWire "" (by decide),
   by decide, parseDataDeclaration_spec.2.2.2 dataDeclReg "" (by decide)⟩

/-- Claim C5: `parsePortDeclaration` yields a non-empty candidate list only
if some leaf reads `output` and some leaf reads `reg` or `logic`; when it
does, the candidates are exactly the identifier-tagged leaves whose text is
not a direction or type keyword, each with the width resolved from the
port's packed-dimension subtree (1 when absent). -/
theorem parsePortDeclaration_spec :
    (∀ p c, parsePortDeclaration p c ≠ [] →
      (∃ l ∈ getAllLeaves p, l.text = "output") ∧
      (∃ l ∈ getAllLeaves p, l.text = "reg" ∨ l.text = "logic")) ∧
    (∀ p c, parsePortDeclaration p c ≠ [] →
      parsePortDeclaration p c =
        ((getAllLeaves p).filter fun l =>
          l.tag = "SymbolIdentifier" &&
          !(l.text = "input" || l.text = "output" || l.text = "inout" ||
            l.text = "wire" || l.text = "reg" || l.text = "logic")).map fun nl =>
          { name := nl.text, width := subtreeWidth p,
            type := RegType.potential_register, file := "",
            line := getLineNumber c nl.start, module := "" }) := by
  have hguard : ∀ p c, parsePortDeclaration p c ≠ [] →
      portIsOutput p = true ∧ (portKind p = "reg" ∨ portKind p = "logic") := by
    intro p c h
    by_cases hc : (portIsOutput p && (portKind p = "reg" || portKind p = "logic")) = true
    · simp only [Bool.and_eq_true, Bool.or_eq_true, decide_eq_true_eq] at hc
      exact hc
    · exfalso
      apply h
      simp [parsePortDeclaration, hc]
  constructor
  · intro p c h
    obtain ⟨hout, hkind⟩ := hguard p c h
    constructor
    · unfold portIsOutput at hout
      rw [List.any_eq_true] at hout
      obtain ⟨l, hl, hl2⟩ := hout
      exact ⟨l, hl, by simpa using hl2⟩
    · unfold portKind at hkind
      rcases foldKind_mem (getAllLeaves p) "wire" hkind with h2 | h2
      · simp at h2
      · exact h2
  · intro p c h
    obtain ⟨hout, hkind⟩ := hguard p c h
    have hcond : (portIsOutput p && (portKind p = "reg" || portKind p = "logic")) = true := by
      rcases hkind with h2 | h2 <;> simp [hout, h2]
    simp [parsePortDeclaration, hcond, portNameLeaves]

/-- Witness for C5: an `output reg data` port yields the single candidate
`data` with width 1. -/
theorem parsePortDeclaration_spec_witness :
    parsePortDeclaration portDeclOut "" ≠ [] ∧
    parsePortDeclaration portDeclOut "" =
      ((getAllLeaves portDeclOut).filter fun l =>
        l.tag = "SymbolIdentifier" &&
        !(l.text = "input" || l.text = "output" || l.text = "inout" ||
          l.text = "wire" || l.text = "reg" || l.text = "logic")).map fun nl =>
        { name := nl.text, width := subtreeWidth portDeclOut,
          type := RegType.potential_register, file := "",
          line := getLineNumber "" nl.start, module := "" } :=
  ⟨by decide, parsePortDeclaration_spec.2 portDeclOut "" (by decide)⟩

/- ---------------------------------------------------------------------
Claim C6: the aggregated views are derived from the candidate sequence. -/

/-- The `byType` fold counts, on top of any accumulator, the registers of
each classification. -/
theorem buildByType_fold (regs : List RegisterInfo) :
    ∀ (acc : RegType → Nat) (t : RegType),
      regs.foldl (fun acc r => fun u => if u = r.type then acc u + 1 else acc u) acc t =
        acc t + (regs.filter fun r => r.type = t).length := by
  induction regs with
  | nil => intro acc t; simp
  | cons r rs ih =>
    intro acc t
    simp only [List.foldl_cons]
    rw [ih]
    by_cases h : r.type = t
    · rw [List.filter_cons_of_pos (by simp [h])]
      simp [h]
      omega
    · rw [List.filter_cons_of_neg (by simp [h])]
      have : (t = r.type) = False := by
        simp
        exact fun he => h he.symm
      simp [this]

/-- The `byModule` fold appends, after any accumulator, the registers of
each module in sequence order. -/
theorem buildByModule_fold (regs : List RegisterInfo) :
    ∀ (acc : String → List RegisterInfo) (m : String),
      regs.foldl (fun acc r => fun u => if u = r.module then acc u ++ [r] else acc u) acc m =
        acc m ++ (regs.filter fun r => r.module = m) := by
  induction regs with
  | nil => intro acc m; simp
  | cons r rs ih =>
    intro acc m
    simp only [List.foldl_cons]
    rw [ih]
    by_cases h : r.module = m
    · rw [List.filter_cons_of_pos (by simp [h])]
      simp [h]
    · rw [List.filter_cons_of_neg (by simp [h])]
      have : (m = r.module) = False := by
        simp
        exact fun he => h he.symm
      simp [this]

/-- The bit-count fold adds the widths to any initial value. -/
theorem totalBits_fold (regs : List RegisterInfo) :
    ∀ a : Nat, regs.foldl (fun acc r => acc + r.width) a =
      a + ((regs.map fun r => r.width).sum) := by
  induction regs with
  | nil => intro a; simp
  | cons r rs ih =>
    intro a
    simp only [List.foldl_cons, List.map_cons, List.sum_cons]
    rw [ih]
    omega

/-- Claim C6: the merged `AnalysisResult` is fully derived from the
concatenated candidate sequence — `totalRegisters` is its length,
`totalBits` the sum of widths, `byType` the per-classification counts and
`byModule` the per-module subsequences in concatenation order; merging an
empty file's result changes nothing, and merging a batch with itself
doubles every count while keeping the per-type and per-module views
doubled copies of themselves. -/
theorem mergeFiles_spec (fs : List (List RegisterInfo × List ModuleInfo)) :
    (mergeFiles fs).totalRegisters = (mergeFiles fs).registers.length ∧
    (mergeFiles fs).totalBits = ((mergeFiles fs).registers.map fun r => r.width).sum ∧
    (∀ t, (mergeFiles fs).byType t =
      ((mergeFiles fs).registers.filter fun r => r.type = t).length) ∧
    (∀ m, (mergeFiles fs).byModule m =
      (mergeFiles fs).registers.filter fun r => r.module = m) ∧
    mergeFiles (fs ++ [([], [])]) = mergeFiles fs ∧
    ((mergeFiles (fs ++ fs)).registers =
        (mergeFiles fs).registers ++ (mergeFiles fs).registers ∧
      (mergeFiles (fs ++ fs)).totalRegisters = 2 * (mergeFiles fs).totalRegisters ∧
      (mergeFiles (fs ++ fs)).totalBits = 2 * (mergeFiles fs).totalBits ∧
      (∀ t, (mergeFiles (fs ++ fs)).byType t = 2 * (mergeFiles fs).byType t) ∧
      (∀ m, (mergeFiles (fs ++ fs)).byModule m =
        (mergeFiles fs).byModule m ++ (mergeFiles fs).byModule m) ∧
      (mergeFiles (fs ++ fs)).modules =
        (mergeFiles fs).modules ++ (mergeFiles fs).modules) := by
  have hreg2 : (mergeFiles (fs ++ fs)).registers =
      (mergeFiles fs).registers ++ (mergeFiles fs).registers := by
    simp [mergeFiles]
  refine ⟨rfl, ?_, ?_, ?_, ?_, hreg2, ?_, ?_, ?_, ?_, ?_⟩
  · show ((fs.map Prod.fst).flatten).foldl (fun acc r => acc + r.width) 0 = _
    rw [totalBits_fold]
    simp [mergeFiles]
  · intro t
    show buildByType _ t = _
    unfold buildByType
    rw [buildByType_fold]
    simp [mergeFiles]
  · intro m
    show buildByModule _ m = _
    unfold buildByModule
    rw [buildByModule_fold]
    simp [mergeFiles]
  · simp [mergeFiles, buildByType, buildByModule]
  · show ((fs ++ fs).map Prod.fst).flatten.length = 2 * ((fs.map Prod.fst).flatten).length
    simp [List.map_append, List.flatten_append]
    omega
  · show ((fs ++ fs).map Prod.fst).flatten.foldl (fun acc r => acc + r.width) 0 =
      2 * ((fs.map Prod.fst).flatten).foldl (fun acc r => acc + r.width) 0
    rw [totalBits_fold, totalBits_fold]
    simp [List.map_append, List.flatten_append]
    omega
  · intro t
    show buildByType _ t = 2 * buildByType _ t
    unfold buildByType
    rw [buildByType_fold, buildByType_fold]
    simp [List.map_append, List.flatten_append, List.filter_append]
    omega
  · intro m
    show buildByModule _ m = buildByModule _ m ++ buildByModule _ m
    unfold buildByModule
    rw [buildByModule_fold, buildByModule_fold]
    simp [List.map_append, List.flatten_append, List.filter_append]
  · show ((fs ++ fs).map Prod.snd).flatten = _
    simp [mergeFiles]

/- ---------------------------------------------------------------------
Claims C7, C8, C10: the tree reconstructor. -/

/-- The stack result of `closeInto` does not depend on the root argument;
an emptied stack freshly determines the root (and makes it `some`), while
a surviving stack passes the root through unchanged. -/
theorem closeInto_cases (ls : List Frame) : ∀ (level : Nat) (f : Frame)
    (r1 r2 : Option SyntaxTree),
    (closeInto level f ls r1).1 = (closeInto level f ls r2).1 ∧
    ((closeInto level f ls r1).1 = [] →
      (closeInto level f ls r1).2 = (closeInto level f ls r2).2 ∧
      (closeInto level f ls r1).2.isSome = true) ∧
    ((closeInto level f ls r1).1 ≠ [] → (closeInto level f ls r1).2 = r1) := by
  induction ls with
  | nil =>
    intro level f r1 r2
    simp [closeInto]
  | cons p ps ih =>
    intro level f r1 r2
    simp only [closeInto]
    by_cases h : ps.length + 1 ≤ level
    · simp [h]
    · simp only [h, if_false]
      exact ih level _ r1 r2

/-- `popTo` analogue of `closeInto_cases`, for a nonempty stack. -/
theorem popTo_cases (level : Nat) (stack : List Frame) (r1 r2 : Option SyntaxTree)
    (h : stack ≠ []) :
    (popTo level stack r1).1 = (popTo level stack r2).1 ∧
    ((popTo level stack r1).1 = [] →
      (popTo level stack r1).2 = (popTo level stack r2).2 ∧
      (popTo level stack r1).2.isSome = true) ∧
    ((popTo level stack r1).1 ≠ [] → (popTo level stack r1).2 = r1) := by
  match stack with
  | [] => exact absurd rfl h
  | f :: rest =>
    simp only [popTo]
    by_cases hc : rest.length + 1 ≤ level
    · simp [hc]
    · simp only [hc, if_false]
      exact closeInto_cases rest level f r1 r2

/-- Folding frames down to level 0 always empties the stack. -/
theorem closeInto_zero (ls : List Frame) : ∀ (f : Frame) (r : Option SyntaxTree),
    (closeInto 0 f ls r).1 = [] := by
  induction ls with
  | nil => intro f r; simp [closeInto]
  | cons p ps ih =>
    intro f r
    simp only [closeInto]
    have h : ¬ (ps.length + 1 ≤ 0) := by omega
    simp only [h, if_false]
    exact ih _ r

/-- Popping a nonempty stack to level 0 empties it. -/
theorem popTo_zero (stack : List Frame) (r : Option SyntaxTree) (h : stack ≠ []) :
    (popTo 0 stack r).1 = [] := by
  match stack with
  | [] => exact absurd rfl h
  | f :: rest =>
    simp only [popTo]
    have hc : ¬ (rest.length + 1 ≤ 0) := by omega
    simp only [hc, if_false]
    exact closeInto_zero rest f r

/-- Unfolding equation of `processLine` for an interior-node line. -/
theorem processLine_node_eq (st : PTState) (line : String) (ws : Nat) (tag : String)
    (h : nodeMatch line = some (ws, tag)) :
    processLine st line =
      ⟨⟨tag, []⟩ :: (popTo (ws / 2) st.stack st.root).1,
        (popTo (ws / 2) st.stack st.root).2⟩ := by
  unfold processLine
  rcases hp : popTo (ws / 2) st.stack st.root with ⟨stack, root⟩
  rw [h]
  simp [hp]

/-- Unfolding equation of `processLine` for a leaf line. -/
theorem processLine_leaf_eq (st : PTState) (line : String) (ws : Nat) (tag : String)
    (s e : Nat) (tx : String)
    (hn : nodeMatch line = none) (hl : leafMatch line = some (ws, tag, s, e, tx)) :
    processLine st line =
      match (popTo (ws / 2) st.stack st.root).1 with
      | [] => ⟨[], (popTo (ws / 2) st.stack st.root).2⟩
      | f :: rest =>
        ⟨⟨f.tag, f.children ++ [SyntaxTree.leaf tag s e tx]⟩ :: rest,
          (popTo (ws / 2) st.stack st.root).2⟩ := by
  unfold processLine
  rcases hp : popTo (ws / 2) st.stack st.root with ⟨stack, root⟩
  rw [hn, hl]
  simp only [hp]

/-- Unfolding equation of `processLine` for a line matching neither
pattern. -/
theorem processLine_skip (st : PTState) (line : String)
    (hn : nodeMatch line = none) (hl : leafMatch line = none) :
    processLine st line = st := by
  unfold processLine
  rw [hn, hl]

/-- Once the machine is live (nonempty stack or recorded root), it stays
live. -/
theorem processLine_live (st : PTState) (line : String)
    (hJ : st.stack ≠ [] ∨ st.root.isSome = true) :
    (processLine st line).stack ≠ [] ∨ (processLine st line).root.isSome = true := by
  cases hn : nodeMatch line with
  | some v =>
    obtain ⟨ws, tag⟩ := v
    rw [processLine_node_eq st line ws tag hn]
    left
    simp
  | none =>
    cases hl : leafMatch line with
    | none =>
      rw [processLine_skip st line hn hl]
      exact hJ
    | some v =>
      obtain ⟨ws, tag, s, e, tx⟩ := v
      rw [processLine_leaf_eq st line ws tag s e tx hn hl]
      by_cases hse : st.stack = []
      · have hr : st.root.isSome = true := by
          rcases hJ with h | h
          · exact absurd hse h
          · exact h
        rw [hse]
        simp [popTo, hr]
      · rcases hres : (popTo (ws / 2) st.stack st.root).1 with _ | ⟨g, grest⟩
        · right
          exact ((popTo_cases (ws / 2) st.stack st.root st.root hse).2.1 hres).2
        · left
          simp

/-- Liveness is preserved by folding any further lines. -/
theorem foldl_live (ls : List String) : ∀ st : PTState,
    (st.stack ≠ [] ∨ st.root.isSome = true) →
    ((ls.foldl processLine st).stack ≠ [] ∨
      (ls.foldl processLine st).root.isSome = true) := by
  induction ls with
  | nil => intro st h; exact h
  | cons l ls ih =>
    intro st h
    exact ih _ (processLine_live st l h)

/-- A live final state yields a root. -/
theorem finalizeState_live (st : PTState)
    (hJ : st.stack ≠ [] ∨ st.root.isSome = true) :
    (finalizeState st).isSome = true := by
  unfold finalizeState
  by_cases hse : st.stack = []
  · have hr : st.root.isSome = true := by
      rcases hJ with h | h
      · exact absurd hse h
      · exact h
    rw [hse]
    simpa [popTo] using hr
  · exact ((popTo_cases 0 st.stack st.root st.root hse).2.1
      (popTo_zero st.stack st.root hse)).2

/-- Without any interior-node line the machine never leaves the initial
state. -/
theorem foldl_noNode (ls : List String) (h : ∀ l ∈ ls, nodeMatch l = none) :
    ls.foldl processLine ⟨[], none⟩ = ⟨[], none⟩ := by
  induction ls with
  | nil => rfl
  | cons l ls ih =>
    have hl := h l (by simp)
    have hstep : processLine ⟨[], none⟩ l = ⟨[], none⟩ := by
      cases hlf : leafMatch l with
      | none => exact processLine_skip _ _ hl hlf
      | some v =>
        obtain ⟨ws, tag, s, e, tx⟩ := v
        rw [processLine_leaf_eq ⟨[], none⟩ l ws tag s e tx hl hlf]
        simp [popTo]
    simp only [List.foldl_cons, hstep]
    exact ih (fun x hx => h x (by simp [hx]))

/-- Claim C7: `parseTreeStructure` yields no root exactly when no line of
the dump matches the interior-node pattern (in particular on entirely
empty input); a file whose dump yields no root contributes empty register
and module lists, and the per-file batch loop simply continues with the
remaining files. -/
theorem parseTreeStructure_parseFailure :
    (∀ output : String, parseTreeStructure output = none ↔
      ∀ l ∈ (splitNl output.toList).map String.mk, nodeMatch l = none) ∧
    parseTreeStructure "" = none ∧
    (∀ fp out c, parseTreeStructure out = none → analyzeFile fp out c = ([], [])) ∧
    (∀ pre post fp out c, parseTreeStructure out = none →
      analyzeBatch (pre ++ (fp, out, c) :: post) = analyzeBatch (pre ++ post)) := by
  have hfile : ∀ fp out c, parseTreeStructure out = none →
      analyzeFile fp out c = ([], []) := by
    intro fp out c h
    unfold analyzeFile
    rw [h]
  refine ⟨?_, rfl, hfile, ?_⟩
  · intro output
    constructor
    · intro hnone
      by_contra hex
      push_neg at hex
      obtain ⟨l, hmem, hne⟩ := hex
      rcases hv : nodeMatch l with _ | ⟨ws, tag⟩
      · exact hne hv
      obtain ⟨s, t, hsplit⟩ := List.append_of_mem hmem
      unfold parseTreeStructure parseTreeLines at hnone
      rw [hsplit, List.foldl_append, List.foldl_cons] at hnone
      have hlive : (processLine (s.foldl processLine ⟨[], none⟩) l).stack ≠ [] ∨
          (processLine (s.foldl processLine ⟨[], none⟩) l).root.isSome = true := by
        rw [processLine_node_eq _ l ws tag hv]
        left
        simp
      have hsome := finalizeState_live _ (foldl_live t _ hlive)
      rw [hnone] at hsome
      simp at hsome
    · intro hall
      unfold parseTreeStructure parseTreeLines
      rw [foldl_noNode _ hall]
      rfl
  · intro pre post fp out c h
    unfold analyzeBatch
    rw [List.map_append, List.map_cons, hfile fp out c h]
    unfold mergeFiles
    simp [List.map_append, List.flatten_append]

/-- Witness for C7: a garbage dump parses to no root, and a batch
containing such a file yields exactly the result of the batch without it
(the good file is still analyzed). -/
theorem parseTreeStructure_parseFailure_witness :
    parseTreeStructure "garbage" = none ∧
    analyzeBatch [("good.v", goodDump, goodSrc), ("bad.v", "garbage", "x")] =
      analyzeBatch [("good.v", goodDump, goodSrc)] :=
  ⟨rfl, by
    have h := parseTreeStructure_parseFailure.2.2.2
      [("good.v", goodDump, goodSrc)] [] "bad.v" "garbage" "x" rfl
    simpa using h⟩

/-- Claim C8: `parseTreeStructure` is total by construction (every branch
of the embedded stack machine is defined), and a matching line whose
indentation level is at least the stack depth causes no pops: `popTo`
leaves such a stack untouched, a deep interior-node line pushes its frame
onto the unchanged stack (so the node is recorded as a child of the
previous top when that frame closes), and a deep leaf line appends its
leaf to the children of the current stack top.  The concrete dump attaches
an over-indented node as a child of the root. -/
theorem parseTreeStructure_clamp :
    (∀ level stack root, stack.length ≤ level → popTo level stack root = (stack, root)) ∧
    (∀ (st : PTState) line ws tag, nodeMatch line = some (ws, tag) →
      st.stack.length ≤ ws / 2 →
      processLine st line = ⟨⟨tag, []⟩ :: st.stack, st.root⟩) ∧
    (∀ (st : PTState) line ws tag s e tx f rest,
      nodeMatch line = none → leafMatch line = some (ws, tag, s, e, tx) →
      st.stack = f :: rest → st.stack.length ≤ ws / 2 →
      processLine st line =
        ⟨⟨f.tag, f.children ++ [SyntaxTree.leaf tag s e tx]⟩ :: rest, st.root⟩) ∧
    parseTreeLines ["Node @0 (tag: A)", "        Node @1 (tag: B)"] =
      some (SyntaxTree.node "A" [SyntaxTree.node "B" []]) := by
  have hclamp : ∀ level stack root, stack.length ≤ level →
      popTo level stack root = (stack, root) := by
    intro level stack root h
    match stack with
    | [] => rfl
    | f :: rest =>
      have hc : rest.length + 1 ≤ level := by simpa using h
      simp [popTo, hc]
  refine ⟨hclamp, ?_, ?_, rfl⟩
  · intro st line ws tag hn hlen
    rw [processLine_node_eq st line ws tag hn, hclamp _ _ _ hlen]
  · intro st line ws tag s e tx f rest hn hl hstack hlen
    rw [processLine_leaf_eq st line ws tag s e tx hn hl, hclamp _ _ _ hlen, hstack]

/-- Witness for C8: a node line indented two levels deeper than the
single-frame stack is pushed without popping anything. -/
theorem parseTreeStructure_clamp_witness :
    nodeMatch "    Node @1 (tag: B)" = some (4, "B") ∧
    (PTState.mk [⟨"A", []⟩] none).stack.length ≤ 4 / 2 ∧
    processLine ⟨[⟨"A", []⟩], none⟩ "    Node @1 (tag: B)" =
      ⟨[⟨"B", []⟩, ⟨"A", []⟩], none⟩ :=
  ⟨rfl, by decide,
   parseTreeStructure_clamp.2.1 ⟨[⟨"A", []⟩], none⟩ "    Node @1 (tag: B)" 4 "B"
     rfl (by decide)⟩

/-- Two states with equal nonempty stacks (roots may differ) are mapped by
one line to states that are either equal or again have equal nonempty
stacks. -/
theorem processLine_rel (st1 st2 : PTState) (l : String)
    (h : st1 = st2 ∨ (st1.stack = st2.stack ∧ st1.stack ≠ [])) :
    processLine st1 l = processLine st2 l ∨
    ((processLine st1 l).stack = (processLine st2 l).stack ∧
      (processLine st1 l).stack ≠ []) := by
  rcases h with rfl | ⟨hs, hne⟩
  · exact Or.inl rfl
  · cases hn : nodeMatch l with
    | some v =>
      obtain ⟨ws, tag⟩ := v
      rw [processLine_node_eq st1 l ws tag hn, processLine_node_eq st2 l ws tag hn]
      right
      have h1 := (popTo_cases (ws / 2) st1.stack st1.root st2.root hne).1
      rw [hs] at h1 ⊢
      simp [h1]
    | none =>
      cases hl : leafMatch l with
      | none =>
        rw [processLine_skip st1 l hn hl, processLine_skip st2 l hn hl]
        exact Or.inr ⟨hs, hne⟩
      | some v =>
        obtain ⟨ws, tag, s, e, tx⟩ := v
        rw [processLine_leaf_eq st1 l ws tag s e tx hn hl,
          processLine_leaf_eq st2 l ws tag s e tx hn hl]
        have hcases := popTo_cases (ws / 2) st1.stack st1.root st2.root hne
        have h1 : (popTo (ws / 2) st1.stack st1.root).1 =
            (popTo (ws / 2) st2.stack st2.root).1 := by
          rw [← hs]; exact hcases.1
        rcases hres : (popTo (ws / 2) st1.stack st1.root).1 with _ | ⟨g, grest⟩
        · left
          have h2 : (popTo (ws / 2) st1.stack st1.root).2 =
              (popTo (ws / 2) st2.stack st2.root).2 := by
            have h3 := (hcases.2.1 hres).1
            rw [← hs]; exact h3
          rw [hres] at h1
          rw [← h1, h2]
        · right
          rw [hres] at h1
          rw [← h1]
          exact ⟨rfl, by simp⟩
  
/-- The relation of `processLine_rel` is preserved by folding a line list
and collapses to equal results after finalization. -/
theorem foldl_rel (ls : List String) : ∀ st1 st2 : PTState,
    (st1 = st2 ∨ (st1.stack = st2.stack ∧ st1.stack ≠ [])) →
    (ls.foldl processLine st1 = ls.foldl processLine st2 ∨
      ((ls.foldl processLine st1).stack = (ls.foldl processLine st2).stack ∧
        (ls.foldl processLine st1).stack ≠ [])) := by
  induction ls with
  | nil => intro st1 st2 h; exact h
  | cons l ls ih =>
    intro st1 st2 h
    exact ih _ _ (processLine_rel st1 st2 l h)

/-- Related states finalize to the same root. -/
theorem finalizeState_rel (st1 st2 : PTState)
    (h : st1 = st2 ∨ (st1.stack = st2.stack ∧ st1.stack ≠ [])) :
    finalizeState st1 = finalizeState st2 := by
  rcases h with rfl | ⟨hs, hne⟩
  · rfl
  · unfold finalizeState
    have h1 := popTo_zero st1.stack st1.root hne
    have h2 := (popTo_cases 0 st1.stack st1.root st2.root hne).2.1 h1
    rw [← hs]
    exact h2.1

/-- Claim C10: a zero-indentation interior-node line restarts the tree:
the result of parsing any lines followed by such a line and a remainder is
the result of parsing from that line on alone, so every node of an earlier
top-level tree is absent — the last root assignment wins.  On the concrete
two-root dump only the second tree survives. -/
theorem parseTreeStructure_last_root :
    (∀ ls1 l ls2 ws tag, nodeMatch l = some (ws, tag) → ws / 2 = 0 →
      parseTreeLines (ls1 ++ l :: ls2) = parseTreeLines (l :: ls2)) ∧
    parseTreeStructure "Node @0 (tag: A)\nNode @4 (tag: B)" =
      some (SyntaxTree.node "B" []) ∧
    parseTreeStructure
        ("Node @0 (tag: A)\n  Node @1 (tag: C)\nNode @4 (tag: B)\n  Node @5 (tag: D)") =
      some (SyntaxTree.node "B" [SyntaxTree.node "D" []]) := by
  refine ⟨?_, rfl, rfl⟩
  intro ls1 l ls2 ws tag h hz
  unfold parseTreeLines
  rw [List.foldl_append, List.foldl_cons, List.foldl_cons]
  apply finalizeState_rel
  apply foldl_rel
  rw [processLine_node_eq _ l ws tag h, processLine_node_eq ⟨[], none⟩ l ws tag h, hz]
  right
  constructor
  · by_cases hse : (List.foldl processLine ⟨[], none⟩ ls1).stack = []
    · rw [hse]
      rfl
    · show _ :: (popTo 0 _ _).1 = _
      rw [popTo_zero _ _ hse]
      rfl
  · simp

/-- Witness for C10: a second top-level node line makes parsing ignore the
first top-level tree entirely. -/
theorem parseTreeStructure_last_root_witness :
    nodeMatch "Node @0 (tag: B)" = some (0, "B") ∧ 0 / 2 = 0 ∧
    parseTreeLines (["Node @0 (tag: A)"] ++ "Node @0 (tag: B)" :: []) =
      parseTreeLines ("Node @0 (tag: B)" :: []) :=
  ⟨rfl, rfl,
   parseTreeStructure_last_root.1 ["Node @0 (tag: A)"] "Node @0 (tag: B)" [] 0 "B"
     rfl rfl⟩
